import Mathlib

/-!
Verification of the core search engine of the Corporate Buzzword Translator
(`script.js`, dictionary in `buzzwords.js`).

Strings are modelled as lists of characters (`Str`); JavaScript numbers are
modelled as rationals (`ℚ`), so every score computation is exact.  Each
definition below is a direct transcription of the correspondingly named
function in `script.js`; definitions whose doc comment says "Claim-side"
follow the wording of the specification instead and are compared with the
transcribed code.
-/

set_option maxRecDepth 10000

abbrev Str := List Char

/-- Coerce a Lean string literal to the character-list model. -/
def strL (s : String) : Str := s.data

/-- JavaScript `toLowerCase`, restricted to the ASCII range used by the data. -/
def lowerStr (s : Str) : Str := s.map Char.toLower

/-- The ASCII portion of JavaScript's `\s` character class (the dictionary and
all queries in the claims are ASCII, so the Unicode spaces are irrelevant). -/
def jsSpace (c : Char) : Bool :=
  c = ' ' || c = '\t' || c = '\n' || c = '\r' || c = Char.ofNat 11 || c = Char.ofNat 12

/-- JavaScript `String.prototype.includes`: `containsStr hay needle` is true
iff `needle` occurs as a contiguous substring of `hay` (the empty needle
always occurs). -/
def containsStr : Str → Str → Bool
  | [], needle => needle.isEmpty
  | c :: hay, needle => needle.isPrefixOf (c :: hay) || containsStr hay needle

/-- JavaScript `String.prototype.trim` (whitespace from both ends). -/
def trimStr (s : Str) : Str :=
  ((s.dropWhile jsSpace).reverse.dropWhile jsSpace).reverse

/-- Model of `query.split(/\s+/).filter(word => word.length > 0)`: the maximal
whitespace-free words of the string, in order. -/
def splitWordsAux : Str → Str → List Str
  | [], acc => if acc.isEmpty then [] else [acc.reverse]
  | c :: s, acc =>
      if jsSpace c then
        if acc.isEmpty then splitWordsAux s [] else acc.reverse :: splitWordsAux s []
      else splitWordsAux s (c :: acc)

def splitWords (s : Str) : List Str := splitWordsAux s []

/-- Model of `[...new Set(l)]`: deduplication keeping the first occurrence of each
element, as JavaScript `Set` iteration order does. -/
def dedupFirstAux : List Str → List Str → List Str
  | [], _ => []
  | a :: l, seen => if a ∈ seen then dedupFirstAux l seen else a :: dedupFirstAux l (a :: seen)

def dedupFirst (l : List Str) : List Str := dedupFirstAux l []

/-- Length of the longest common leading run of equal characters; the source
accumulates `0.1` per such character in `calculateFuzzyMatch`. -/
def commonPrefixLen : Str → Str → Nat
  | a :: s, b :: t => if a = b then commonPrefixLen s t + 1 else 0
  | _, _ => 0

/-! ## Levenshtein distance (`levenshteinDistance` in `script.js`)

The source fills a dynamic-programming matrix row by row: row `i` holds the
distances between every prefix of `str1` and the length-`i` prefix of
`str2`.  `levRowGo` computes the cells `1..n1` of one row from the previous
row, `levRow` prepends the cell `matrix[i][0] = i`, and `levLoop` iterates
over the characters of `str2`. -/

/-- One pass along a row: `diag` is `matrix[i-1][j-1]`, `left` is
`matrix[i][j-1]`, `prevTail` is `matrix[i-1][j..]`, and `s1` is the part of
`str1` still to be processed.  A cell is `diag` when the characters agree and
otherwise `min (diag+1) (min (left+1) (above+1))`, exactly the source's
`Math.min(substitution, insertion, deletion)`. -/
def levRowGo (c2 : Char) : Str → Nat → Nat → List Nat → List Nat
  | [], _, _, _ => []
  | c1 :: s1, diag, left, prevTail =>
      match prevTail with
      | [] => []
      | above :: rest =>
          let cur := if c2 = c1 then diag
                     else min (diag + 1) (min (left + 1) (above + 1))
          cur :: levRowGo c2 s1 above cur rest

/-- Row `i` of the matrix from row `i-1`: the source initialises
`matrix[i] = [i]` and then fills the remaining cells. -/
def levRow (c2 : Char) (s1 : Str) (prev : List Nat) (i : Nat) : List Nat :=
  match prev with
  | [] => [i]
  | d :: rest => i :: levRowGo c2 s1 d i rest

/-- Iterate `levRow` over the characters of `str2`. -/
def levLoop (s1 : Str) : Str → List Nat → Nat → List Nat
  | [], row, _ => row
  | c2 :: s2, row, i => levLoop s1 s2 (levRow c2 s1 row i) (i + 1)

/-- Source `levenshteinDistance(str1, str2)`: run the DP and read off
`matrix[str2.length][str1.length]`, the last cell of the last row. -/
def levenshteinDistance (str1 str2 : Str) : Nat :=
  (levLoop str1 str2 (List.range (str1.length + 1)) 1).getLastD 0

/-! ## The matcher (`calculateFuzzyMatch`, `calculateKeywordMatches`,
`calculateRelevanceScore`) -/

/-- A dictionary entry as defined in `buzzwords.js`.  `multipleMeanings`
records are carried as translation/context pairs; the engine never inspects
them. -/
structure Buzzword where
  phrase : Str
  translation : Str
  keywords : List Str
  category : Str
  alternatives : List Str
  context : Str
  multipleMeanings : List (Str × Str) := []
  deriving DecidableEq, Repr

/-- The record built by `calculateRelevanceScore`.  The source field `match`
is a reserved word in Lean and is rendered as `matchPhrase`. -/
structure SearchResult where
  matchPhrase : Str
  translation : Str
  relevanceScore : ℚ
  matchedKeywords : List Str
  category : Str
  context : Str
  alternatives : List Str
  multipleMeanings : List (Str × Str)
  matchType : Str
  deriving DecidableEq, Repr

/-- Source `calculateFuzzyMatch(str1, str2).score`: one minus the normalised edit
distance, plus `0.1` per common leading character, capped at `1`. -/
def calculateFuzzyMatch (str1 str2 : Str) : ℚ :=
  let distance := levenshteinDistance str1 str2
  let maxLength := Nat.max str1.length str2.length
  if maxLength = 0 then 1
  else
    let similarity : ℚ := 1 - (distance : ℚ) / (maxLength : ℚ)
    let prefixBonus : ℚ := (commonPrefixLen str1 str2 : ℚ) * (1 / 10)
    min 1 (similarity + prefixBonus)

/-- The inner loop of `calculateKeywordMatches`: the best contribution of any
keyword for the query word `queryWord`, following the source's
`if`/`else if` chain (`bestMatch` starts at `0` and each keyword can only
raise it). -/
def keywordBest (keywords : List Str) (queryWord : Str) : ℚ :=
  keywords.foldl
    (fun bestMatch keyword =>
      let keywordLower := lowerStr keyword
      if keywordLower = queryWord then max bestMatch 1
      else if containsStr keywordLower queryWord then max bestMatch (8 / 10)
      else if containsStr queryWord keywordLower then max bestMatch (7 / 10)
      else
        let fuzzyScore := calculateFuzzyMatch keywordLower queryWord
        if fuzzyScore > 6 / 10 then max bestMatch (fuzzyScore * (1 / 2)) else bestMatch)
    0

/-- Source `calculateKeywordMatches(buzzword, queryWords)`: sum the best
contribution of each query word (recording the words that contributed) and
squash the total into a score, returned as `(score, matches)`. -/
def calculateKeywordMatches (buzzword : Buzzword) (queryWords : List Str) : ℚ × List Str :=
  let step := queryWords.foldl
    (fun (acc : ℚ × List Str) queryWord =>
      let bestMatch := keywordBest buzzword.keywords queryWord
      if bestMatch > 0 then (acc.1 + bestMatch, acc.2 ++ [queryWord]) else acc)
    (0, [])
  let totalMatches := step.1
  let score : ℚ :=
    if totalMatches > 0 then
      min (85 / 100)
        (4 / 10 + (totalMatches / (Nat.max queryWords.length buzzword.keywords.length : ℚ)) * (45 / 100))
    else 0
  (score, step.2)

/-- Source `calculateRelevanceScore(buzzword, normalizedQuery, queryWords)`: the
five matching rules, first qualifying rule wins, with the fuzzy fallback
applying only when rules 1-4 left the score at `0`. -/
def calculateRelevanceScore (buzzword : Buzzword) (normalizedQuery : Str)
    (queryWords : List Str) : SearchResult :=
  let phrase := lowerStr buzzword.phrase
  let base : ℚ × List Str × Str :=
    if phrase = normalizedQuery then (1, [normalizedQuery], strL "exact")
    else if containsStr phrase normalizedQuery then (95 / 100, [normalizedQuery], strL "phrase_contains")
    else if containsStr normalizedQuery phrase then (9 / 10, [phrase], strL "query_contains")
    else
      let keywordMatchResult := calculateKeywordMatches buzzword queryWords
      if keywordMatchResult.1 > 0 then
        (keywordMatchResult.1, keywordMatchResult.2, strL "keyword")
      else (0, [], strL "")
  let final : ℚ × List Str × Str :=
    if base.1 = 0 then
      let fuzzyScore := calculateFuzzyMatch phrase normalizedQuery
      if fuzzyScore > 3 / 10 then (fuzzyScore * (6 / 10), [normalizedQuery], strL "fuzzy")
      else base
    else base
  { matchPhrase := buzzword.phrase
    translation := buzzword.translation
    relevanceScore := final.1
    matchedKeywords := dedupFirst final.2.1
    category := buzzword.category
    context := buzzword.context
    alternatives := buzzword.alternatives
    multipleMeanings := buzzword.multipleMeanings
    matchType := final.2.2 }

/-! ## The ranker (`searchWithFuzzyMatching` and the sort comparator) -/

/-- The numeric comparator passed to `results.sort` in
`searchWithFuzzyMatching`; negative means `a` sorts before `b`. -/
def resultCompare (a b : SearchResult) : ℚ :=
  let scoreDiff := b.relevanceScore - a.relevanceScore
  if |scoreDiff| > 1 / 100 then scoreDiff
  else if a.matchType = strL "exact" ∧ b.matchType ≠ strL "exact" then -1
  else if b.matchType = strL "exact" ∧ a.matchType ≠ strL "exact" then 1
  else if a.matchType = strL "phrase_contains" ∧ b.matchType ≠ strL "phrase_contains" then -1
  else if b.matchType = strL "phrase_contains" ∧ a.matchType ≠ strL "phrase_contains" then 1
  else (a.matchPhrase.length : ℚ) - (b.matchPhrase.length : ℚ)

/-- Result `a` may stay before result `b` under the comparator. -/
def resultLE (a b : SearchResult) : Prop := resultCompare a b ≤ 0

instance : DecidableRel resultLE := fun a b =>
  inferInstanceAs (Decidable (resultCompare a b ≤ 0))

/-- Source `results.sort(comparator)`: modelled as a stable sort under the
comparator (ECMAScript 2019 requires the sort to be stable). -/
def sortResults (results : List SearchResult) : List SearchResult :=
  results.insertionSort resultLE

/-- The pre-filter predicate of `searchWithFuzzyMatching`: an entry is kept
when its phrase is non-empty (`!buzzword.phrase` skips the entry) and its
phrase or one of its keywords contains the query or one of the query words. -/
def preFilter (normalizedQuery : Str) (queryWords : List Str) (buzzword : Buzzword) : Bool :=
  if buzzword.phrase.isEmpty then false
  else
    let phrase := lowerStr buzzword.phrase
    containsStr phrase normalizedQuery ||
    queryWords.any (fun word => containsStr phrase word) ||
    buzzword.keywords.any (fun keyword =>
      containsStr (lowerStr keyword) normalizedQuery ||
      queryWords.any (fun word => containsStr (lowerStr keyword) word))

/-- Source `searchWithFuzzyMatching(query)`: normalise, split into words, pre-filter
the dictionary, score the candidates, keep scores above `0.1`, sort, and keep
the top ten. -/
def searchWithFuzzyMatching (buzzwords : List Buzzword) (query : Str) : List SearchResult :=
  let normalizedQuery := trimStr (lowerStr query)
  let queryWords := splitWords normalizedQuery
  if queryWords.isEmpty then []
  else
    let relevantBuzzwords := buzzwords.filter (preFilter normalizedQuery queryWords)
    let results := (relevantBuzzwords.map
        (fun buzzword => calculateRelevanceScore buzzword normalizedQuery queryWords)).filter
      (fun result => result.relevanceScore > 1 / 10)
    (sortResults results).take 10

/-! ## Sanitisation, validation and the search entry point -/

/-- First step of `sanitizeInput(input)`: strip `< > " ' &`.  The remaining
steps collapse whitespace runs to a
single space, strip ASCII control characters, trim. -/
def removeHarmful (s : Str) : Str :=
  s.filter (fun c => !(c = '<' || c = '>' || c = Char.ofNat 34 || c = Char.ofNat 39 || c = '&'))

def collapseWsAux : Str → Bool → Str
  | [], _ => []
  | c :: s, inRun =>
      if jsSpace c then
        if inRun then collapseWsAux s true else ' ' :: collapseWsAux s true
      else c :: collapseWsAux s false

/-- Model of `replace(/\s+/g, ' ')`: every maximal whitespace run becomes one space. -/
def collapseWs (s : Str) : Str := collapseWsAux s false

/-- Model of `replace(/[\x00-\x1F\x7F]/g, '')`. -/
def removeCtrl (s : Str) : Str :=
  s.filter (fun c => !(c.toNat ≤ 0x1F || c.toNat = 0x7F))

def sanitizeInput (input : Str) : Str :=
  trimStr (removeCtrl (collapseWs (removeHarmful input)))

/-- The record returned by `validateSearchInput`. -/
structure ValidationResult where
  valid : Bool
  sanitized : Str
  message : Str
  deriving DecidableEq, Repr

/-- Source `validateSearchInput(input)`: sanitise, then check for emptiness, the
length bounds and the presence of a letter, in that order. -/
def validateSearchInput (input : Str) : ValidationResult :=
  let sanitized := sanitizeInput input
  if sanitized.isEmpty then ⟨true, sanitized, strL "empty"⟩
  else if sanitized.length < 2 then ⟨false, sanitized, strL "too_short"⟩
  else if sanitized.length > 100 then ⟨false, sanitized, strL "too_long"⟩
  else if !(sanitized.any Char.isAlpha) then ⟨false, sanitized, strL "invalid_characters"⟩
  else ⟨true, sanitized, strL "valid"⟩

/-- The three observable outcomes of `performSearch`: the empty-query
browsing state, a validation failure with its reason code, or a result
list (possibly empty). -/
inductive SearchOutcome where
  | empty : SearchOutcome
  | invalid (reason : Str) : SearchOutcome
  | ok (results : List SearchResult) : SearchOutcome
  deriving DecidableEq, Repr

/-- Source `performSearch(query)`, stripped of rendering and the cache (the cache
stores exactly the value computed here, so outcomes are unchanged):
validate, then either show the browsing state, report the validation
failure, or run `searchWithFuzzyMatching` on the sanitised query. -/
def performSearch (buzzwords : List Buzzword) (query : Str) : SearchOutcome :=
  let validation := validateSearchInput query
  if validation.message = strL "empty" then .empty
  else if validation.valid = false then .invalid validation.message
  else .ok (searchWithFuzzyMatching buzzwords validation.sanitized)

/-- The dictionary-load check in the `DOMContentLoaded` handler: reject an
empty dictionary, count the entries missing a phrase or a translation, throw
when they exceed half of the supplied list, and otherwise hand the **full**
supplied list to the engine constructor. -/
def initializeEngine (supplied : List Buzzword) : Option (List Buzzword) :=
  if supplied.isEmpty then none
  else
    let invalidBuzzwords := supplied.filter
      (fun buzzword => buzzword.phrase.isEmpty || buzzword.translation.isEmpty)
    if (invalidBuzzwords.length : ℚ) > (supplied.length : ℚ) * (1 / 2) then none
    else some supplied

/-- Claim-side ordering relation of the specification: relevance score
descending, scores within `0.01` tied, ties broken by `exact` first, then
`phrase_contains`, then shorter phrase first. -/
def rankedNotAfter (a b : SearchResult) : Prop :=
  if |a.relevanceScore - b.relevanceScore| > 1 / 100 then b.relevanceScore ≤ a.relevanceScore
  else if a.matchType = strL "exact" ∧ b.matchType ≠ strL "exact" then True
  else if b.matchType = strL "exact" ∧ a.matchType ≠ strL "exact" then False
  else if a.matchType = strL "phrase_contains" ∧ b.matchType ≠ strL "phrase_contains" then True
  else if b.matchType = strL "phrase_contains" ∧ a.matchType ≠ strL "phrase_contains" then False
  else a.matchPhrase.length ≤ b.matchPhrase.length

instance : DecidableRel rankedNotAfter := fun a b => by
  unfold rankedNotAfter
  infer_instance

/-- Claim-side: the contribution of one keyword for one query term, in the
specification's priority order. -/
def contribOne (queryWord keyword : Str) : ℚ :=
  let keywordLower := lowerStr keyword
  if keywordLower = queryWord then 1
  else if containsStr keywordLower queryWord then 8 / 10
  else if containsStr queryWord keywordLower then 7 / 10
  else
    let fuzzyScore := calculateFuzzyMatch keywordLower queryWord
    if fuzzyScore > 6 / 10 then fuzzyScore * (1 / 2) else 0

/-- Claim-side: a query term's contribution is the best contribution over
the entry's keywords. -/
def termContribution (keywords : List Str) (queryWord : Str) : ℚ :=
  (keywords.map (contribOne queryWord)).foldr max 0

/-! ## Concrete entries from `buzzwords.js` and crafted test entries -/

/-- The `synergy` entry of `buzzwords.js`, used by the specification's
concrete scenarios. -/
def synergyEntry : Buzzword :=
  { phrase := strL "synergy"
    translation := strL "working together effectively"
    keywords := [strL "synergy", strL "together", strL "collaboration", strL "teamwork"]
    category := strL "collaboration"
    alternatives := [strL "collaboration", strL "teamwork"]
    context := strL "The idea that combined efforts produce better results than individual work" }

/-- A minimal well-formed entry used to instantiate universally quantified
theorems. -/
def tinyEntry : Buzzword :=
  { phrase := strL "ab", translation := strL "x", keywords := [],
    category := [], alternatives := [], context := [] }

/-- An entry whose phrase contains an ampersand: the phrase is a valid query
yet is altered by sanitisation. -/
def ampEntry : Buzzword :=
  { phrase := strL "a&b", translation := strL "x", keywords := [],
    category := [], alternatives := [], context := [] }

/-- An entry with an empty translation: invalid under the dictionary
invariant of the specification. -/
def badEntry : Buzzword :=
  { phrase := strL "oops", translation := [], keywords := [],
    category := [], alternatives := [], context := [] }

/-- The `drinking the Kool-Aid` entry of `buzzwords.js`: a shipped entry with
a mixed-case, sanitisation-stable phrase. -/
def koolAidEntry : Buzzword :=
  { phrase := strL "drinking the Kool-Aid"
    translation := strL "blindly accepting company beliefs"
    keywords := [strL "drinking", strL "kool", strL "aid", strL "accepting", strL "beliefs"]
    category := strL "culture"
    alternatives := [strL "buying in completely", strL "accepting blindly"]
    context := strL "Accepting corporate culture or decisions without question" }

/-- An entry whose phrase is a given case variant of `quad`: the data model
requires phrases to be unique only case-sensitively, so distinct case
variants may coexist in a dictionary. -/
def caseVariantEntry (p : String) : Buzzword :=
  { phrase := strL p, translation := strL "x", keywords := [],
    category := [], alternatives := [], context := [] }

/-- A dictionary of eleven entries whose phrases are distinct case variants
of `quad`; all of them lower to `quad` and therefore score an exact `1.0`
for the query `quad`. -/
def caseVariantDict : List Buzzword :=
  [caseVariantEntry "QUAD", caseVariantEntry "QUAd", caseVariantEntry "QUaD",
   caseVariantEntry "QUad", caseVariantEntry "QuAD", caseVariantEntry "QuAd",
   caseVariantEntry "QuaD", caseVariantEntry "Quad", caseVariantEntry "qUAD",
   caseVariantEntry "qUAd", caseVariantEntry "quad"]

/-- Claim-side: the ranking pipeline with the matcher applied to **every**
dictionary entry, no pre-filter (the claimed equivalent of
`searchWithFuzzyMatching`). -/
def searchAllEntries (buzzwords : List Buzzword) (query : Str) : List SearchResult :=
  let normalizedQuery := trimStr (lowerStr query)
  let queryWords := splitWords normalizedQuery
  if queryWords.isEmpty then []
  else
    let results := (buzzwords.map
        (fun buzzword => calculateRelevanceScore buzzword normalizedQuery queryWords)).filter
      (fun result => result.relevanceScore > 1 / 10)
    (sortResults results).take 10


/-! ## Claim-side Levenshtein recursion and its equivalence with the DP -/

/-- Claim-side: the textbook Levenshtein recursion with unit cost for
substitution, insertion and deletion.  The grouping of the three minima
matches the source's `Math.min(substitution, insertion, deletion)`. -/
def levR : Str → Str → Nat
  | [], t => t.length
  | s, [] => s.length
  | a :: s, b :: t =>
      if b = a then levR s t
      else min (levR s t + 1) (min (levR s (b :: t) + 1) (levR (a :: s) t + 1))
termination_by s t => s.length + t.length
decreasing_by all_goals (simp [List.length_cons]; try omega)

/-- Cell `(j, i)` of the DP matrix is the distance between the length-`j`
prefix of `str1` and the length-`i` prefix of `str2`; stated through `levR`
on the reversed prefixes. -/
def levP (p1 p2 : Str) : Nat := levR p1.reverse p2.reverse

/-- The cells `j0+1 .. n1` of the row of the DP matrix for the `str2` prefix
`p2`, where `p1` is the length-`j0` prefix of `str1` and the third argument
the rest of `str1`. -/
def rowSpec (p2 p1 : Str) : Str → List Nat
  | [] => []
  | c :: s => levP (p1 ++ [c]) p2 :: rowSpec p2 (p1 ++ [c]) s

theorem levR_nil_right (s : Str) : levR s [] = s.length := by
  cases s <;> simp [levR]

theorem levR_self (s : Str) : levR s s = 0 := by
  induction s with
  | nil => simp [levR]
  | cons a s ih => simp [levR, ih]

theorem levR_symm (s : Str) : ∀ t : Str, levR s t = levR t s := by
  induction s with
  | nil => intro t; cases t <;> simp [levR]
  | cons a s ihs =>
    intro t
    induction t with
    | nil => simp [levR]
    | cons b t iht =>
      simp only [levR]
      by_cases h : b = a
      · rw [if_pos h, if_pos h.symm, ihs t]
      · rw [if_neg h, if_neg (fun hh => h hh.symm), ihs t, ihs (b :: t), iht,
          min_comm (levR (b :: t) s + 1) (levR t (a :: s) + 1)]

theorem levR_nil_left (t : Str) : levR [] t = t.length := by
  simp [levR]

theorem levP_nil_left (p2 : Str) : levP [] p2 = p2.length := by
  rw [levP, List.reverse_nil, levR_nil_left, List.length_reverse]

theorem levP_nil_right (p1 : Str) : levP p1 [] = p1.length := by
  simp [levP, levR_nil_right]

theorem levP_snoc (p1 p2 : Str) (a b : Char) :
    levP (p1 ++ [a]) (p2 ++ [b]) =
      if b = a then levP p1 p2
      else min (levP p1 p2 + 1)
        (min (levP p1 (p2 ++ [b]) + 1) (levP (p1 ++ [a]) p2 + 1)) := by
  simp only [levP, List.reverse_append, List.reverse_singleton, List.singleton_append]
  rw [levR]

theorem levRowGo_spec (c2 : Char) (p2 : Str) :
    ∀ (s1 p1 : Str),
      levRowGo c2 s1 (levP p1 p2) (levP p1 (p2 ++ [c2])) (rowSpec p2 p1 s1)
        = rowSpec (p2 ++ [c2]) p1 s1 := by
  intro s1
  induction s1 with
  | nil => intro p1; simp [levRowGo, rowSpec]
  | cons c s ih =>
    intro p1
    simp only [rowSpec, levRowGo]
    rw [show (if c2 = c then levP p1 p2
          else min (levP p1 p2 + 1)
            (min (levP p1 (p2 ++ [c2]) + 1) (levP (p1 ++ [c]) p2 + 1)))
        = levP (p1 ++ [c]) (p2 ++ [c2]) from (levP_snoc p1 p2 c c2).symm]
    rw [ih (p1 ++ [c])]

theorem levRow_spec (c2 : Char) (s1 p2 : Str) :
    levRow c2 s1 (levP [] p2 :: rowSpec p2 [] s1) (p2.length + 1)
      = levP [] (p2 ++ [c2]) :: rowSpec (p2 ++ [c2]) [] s1 := by
  have h0 : levP [] (p2 ++ [c2]) = p2.length + 1 := by
    rw [levP_nil_left, List.length_append, List.length_singleton]
  have h1 : levP [] p2 = p2.length := levP_nil_left p2
  simp only [levRow, h0]
  rw [show p2.length + 1 = levP [] (p2 ++ [c2]) from h0.symm,
      show p2.length = levP [] p2 from h1.symm] at *
  rw [levRowGo_spec c2 p2 s1 []]

theorem levLoop_spec (s1 : Str) :
    ∀ (s2 p2 : Str),
      levLoop s1 s2 (levP [] p2 :: rowSpec p2 [] s1) (p2.length + 1)
        = levP [] (p2 ++ s2) :: rowSpec (p2 ++ s2) [] s1 := by
  intro s2
  induction s2 with
  | nil => intro p2; simp [levLoop]
  | cons c2 s2 ih =>
    intro p2
    simp only [levLoop]
    rw [levRow_spec c2 s1 p2]
    have h2 : (p2 ++ [c2]).length + 1 = p2.length + 1 + 1 := by
      simp [List.length_append]
    have := ih (p2 ++ [c2])
    rw [h2] at this
    rw [this, List.append_assoc, List.singleton_append]

theorem rowSpec_nil : ∀ (s1 p1 : Str), rowSpec [] p1 s1 = List.range' (p1.length + 1) s1.length := by
  intro s1
  induction s1 with
  | nil => intro p1; simp [rowSpec]
  | cons c s ih =>
    intro p1
    rw [show ((c :: s : Str)).length = s.length + 1 from rfl, List.range'_succ]
    simp only [rowSpec, levP_nil_right, List.length_append, List.length_singleton]
    rw [ih (p1 ++ [c])]
    simp [List.length_append]

theorem getLastD_rowSpec (p2 : Str) :
    ∀ (s1 p1 : Str) (d : Nat),
      (levP p1 p2 :: rowSpec p2 p1 s1).getLastD d = levP (p1 ++ s1) p2 := by
  intro s1
  induction s1 with
  | nil => intro p1 d; simp [rowSpec]
  | cons c s ih =>
    intro p1 d
    simp only [rowSpec]
    rw [List.getLastD_cons, ih (p1 ++ [c]) (levP p1 p2), List.append_assoc,
      List.singleton_append]

/-- The row-by-row DP of the source computes exactly the textbook Levenshtein
recursion (applied to the reversed strings, because the DP grows prefixes
while the recursion peels first characters). -/
theorem levenshteinDistance_eq_levR (s1 s2 : Str) :
    levenshteinDistance s1 s2 = levR s1.reverse s2.reverse := by
  have h0 : levP [] [] = 0 := by simp [levP, levR]
  have hrow : List.range (s1.length + 1) = levP [] [] :: rowSpec [] [] s1 := by
    rw [List.range_eq_range', List.range'_succ, h0, rowSpec_nil s1 []]
    norm_num
  unfold levenshteinDistance
  rw [hrow]
  rw [show levLoop s1 s2 (levP [] [] :: rowSpec [] [] s1) 1
        = levP [] ([] ++ s2) :: rowSpec ([] ++ s2) [] s1 from levLoop_spec s1 s2 []]
  rw [List.nil_append, getLastD_rowSpec s2 s1 [] 0, List.nil_append]
  rfl

/-! ## Properties of the sort comparator and of the modelled sort -/

theorem resultLE_refl (a : SearchResult) : resultLE a a := by
  unfold resultLE resultCompare
  simp

theorem resultLE_total (a b : SearchResult) : resultLE a b ∨ resultLE b a := by
  unfold resultLE resultCompare
  by_cases h : |b.relevanceScore - a.relevanceScore| > 1 / 100
  · have h' : |a.relevanceScore - b.relevanceScore| > 1 / 100 := by rwa [abs_sub_comm]
    rw [if_pos h, if_pos h']
    rcases le_total a.relevanceScore b.relevanceScore with hle | hle
    · right; linarith
    · left; linarith
  · have h' : ¬ |a.relevanceScore - b.relevanceScore| > 1 / 100 := by rwa [abs_sub_comm]
    rw [if_neg h, if_neg h']
    split_ifs <;>
      first
      | (left; decide)
      | (right; decide)
      | (rcases le_total (a.matchPhrase.length : ℚ) (b.matchPhrase.length : ℚ) with hl | hl
         · left; linarith
         · right; linarith)

theorem chain_orderedInsert {α : Type} (r : α → α → Prop) [DecidableRel r]
    (total : ∀ x y, r x y ∨ r y x) (a : α) :
    ∀ l : List α, List.Chain' r l → List.Chain' r (List.orderedInsert r a l) := by
  intro l
  induction l with
  | nil => intro _; simp [List.orderedInsert]
  | cons b l ih =>
    intro h
    rw [List.orderedInsert]
    by_cases hab : r a b
    · rw [if_pos hab, List.chain'_cons]
      exact ⟨hab, h⟩
    · rw [if_neg hab]
      have hba : r b a := (total a b).resolve_left hab
      have htail := ih (List.Chain'.tail h)
      cases l with
      | nil =>
        simp only [List.orderedInsert]
        exact List.chain'_pair.mpr hba
      | cons c l' =>
        rw [List.orderedInsert] at htail ⊢
        by_cases hac : r a c
        · rw [if_pos hac] at htail ⊢
          rw [List.chain'_cons]
          exact ⟨hba, htail⟩
        · rw [if_neg hac] at htail ⊢
          rw [List.chain'_cons]
          exact ⟨(List.chain'_cons.mp h).1, htail⟩

theorem chain_insertionSort {α : Type} (r : α → α → Prop) [DecidableRel r]
    (total : ∀ x y, r x y ∨ r y x) :
    ∀ l : List α, List.Chain' r (List.insertionSort r l) := by
  intro l
  induction l with
  | nil => simp [List.insertionSort]
  | cons a l ih =>
    rw [List.insertionSort]
    exact chain_orderedInsert r total a _ ih

/-- Inserting an element that must precede the whole of `B` into `A ++ B`
inserts it within the `A` part. -/
theorem orderedInsert_append_left {α : Type} (r : α → α → Prop) [DecidableRel r] (x : α) :
    ∀ (A B : List α), (∀ b ∈ B, r x b) →
      List.orderedInsert r x (A ++ B) = (List.orderedInsert r x A) ++ B := by
  intro A
  induction A with
  | nil =>
    intro B hB
    cases B with
    | nil => rfl
    | cons b B =>
      show List.orderedInsert r x (b :: B) = [x] ++ b :: B
      rw [List.orderedInsert, if_pos (hB b (List.mem_cons_self b B))]
      rfl
  | cons a A ih =>
    intro B hB
    show List.orderedInsert r x (a :: (A ++ B)) = List.orderedInsert r x (a :: A) ++ B
    rw [List.orderedInsert, List.orderedInsert]
    by_cases h : r x a
    · rw [if_pos h, if_pos h]
      rfl
    · rw [if_neg h, if_neg h, List.cons_append, ih B hB]

/-- Inserting an element that may precede no element of `A` into `A ++ B`
inserts it within the `B` part. -/
theorem orderedInsert_append_right {α : Type} (r : α → α → Prop) [DecidableRel r] (x : α) :
    ∀ (A B : List α), (∀ a ∈ A, ¬ r x a) →
      List.orderedInsert r x (A ++ B) = A ++ List.orderedInsert r x B := by
  intro A
  induction A with
  | nil => intro B _; rfl
  | cons a A ih =>
    intro B hA
    show List.orderedInsert r x (a :: (A ++ B)) = a :: A ++ List.orderedInsert r x B
    rw [List.orderedInsert, if_neg (hA a (List.mem_cons_self a A)), ih B
      (fun a ha => hA a (List.mem_cons_of_mem _ ha))]
    rfl

/-- When a class of elements (those satisfying `P`) strictly precedes every
element outside the class, an insertion sort produces all the `P` elements
followed by all the others, the `P` block being as long as the number of `P`
elements of the input. -/
theorem insertionSort_partition {α : Type} (r : α → α → Prop) [DecidableRel r] (P : α → Bool) :
    ∀ l : List α,
      (∀ x ∈ l, ∀ y ∈ l, P x = true → P y = false → r x y ∧ ¬ r y x) →
      ∃ A B, List.insertionSort r l = A ++ B ∧
        (∀ a ∈ A, P a = true) ∧ (∀ b ∈ B, P b = false) ∧
        A.length = (l.filter P).length := by
  intro l
  induction l with
  | nil => exact fun _ => ⟨[], [], rfl, by simp, by simp, by simp⟩
  | cons x l ih =>
    intro hsep
    obtain ⟨A, B, hAB, hA, hB, hlen⟩ :=
      ih (fun a ha b hb => hsep a (List.mem_cons_of_mem x ha) b (List.mem_cons_of_mem x hb))
    have hmemA : ∀ a ∈ A, a ∈ l := fun a ha =>
      (List.mem_insertionSort r).mp (hAB ▸ List.mem_append_left B ha)
    have hmemB : ∀ b ∈ B, b ∈ l := fun b hb =>
      (List.mem_insertionSort r).mp (hAB ▸ List.mem_append_right A hb)
    show ∃ A' B', List.orderedInsert r x (List.insertionSort r l) = A' ++ B' ∧ _
    rw [hAB]
    by_cases hx : P x = true
    · have hrB : ∀ b ∈ B, r x b := fun b hb =>
        (hsep x (List.mem_cons_self x l) b (List.mem_cons_of_mem x (hmemB b hb)) hx (hB b hb)).1
      refine ⟨List.orderedInsert r x A, B, orderedInsert_append_left r x A B hrB, ?_, hB, ?_⟩
      · intro a ha
        rcases List.mem_cons.mp ((List.perm_orderedInsert r x A).mem_iff.mp ha) with h | h
        · rwa [h]
        · exact hA a h
      · rw [(List.perm_orderedInsert r x A).length_eq]
        simp [List.filter_cons, hx, hlen]
    · have hx' : P x = false := by revert hx; cases P x <;> simp
      have hrA : ∀ a ∈ A, ¬ r x a := fun a ha =>
        (hsep a (List.mem_cons_of_mem x (hmemA a ha)) x (List.mem_cons_self x l)
          (hA a ha) hx').2
      refine ⟨A, List.orderedInsert r x B, orderedInsert_append_right r x A B hrA, hA, ?_, ?_⟩
      · intro b hb
        rcases List.mem_cons.mp ((List.perm_orderedInsert r x B).mem_iff.mp hb) with h | h
        · rwa [h]
        · exact hB b h
      · simp [List.filter_cons, hx', hlen]

/-- Pushing a map through a filter chain: the scored-and-kept results whose
image satisfies `P` are no more numerous than the dictionary entries
satisfying `s`, provided `P` of an entry's score forces `s` of the entry. -/
theorem count_bound {α β : Type} (g : α → β) (pre : α → Bool) (q P : β → Bool) (s : α → Bool) :
    ∀ l : List α, (∀ f ∈ l, P (g f) = true → s f = true) →
      ((((l.filter pre).map g).filter q).filter P).length ≤ (l.filter s).length := by
  intro l
  induction l with
  | nil => simp
  | cons f l ih =>
    intro h
    have ih' := ih (fun f hf => h f (List.mem_cons_of_mem _ hf))
    have hle : (l.filter s).length ≤ ((f :: l).filter s).length := by
      rw [List.filter_cons]
      by_cases hs : s f = true
      · rw [if_pos hs]; exact Nat.le_succ _
      · rw [if_neg hs]
    rw [List.filter_cons]
    by_cases hp : pre f = true
    · rw [if_pos hp, List.map_cons, List.filter_cons]
      by_cases hq : q (g f) = true
      · rw [if_pos hq, List.filter_cons]
        by_cases hP : P (g f) = true
        · rw [if_pos hP]
          have hs := h f (List.mem_cons_self f l) hP
          rw [List.filter_cons, if_pos hs]
          exact Nat.succ_le_succ ih'
        · rw [if_neg hP]
          exact le_trans ih' hle
      · rw [if_neg hq]
        exact le_trans ih' hle
    · rw [if_neg hp]
      exact le_trans ih' hle

/-- A score-1 result strictly precedes any result scoring at most `0.95`
under the comparator: the score gap exceeds the `0.01` tie window. -/
theorem resultLE_gap (x y : SearchResult) (hx : x.relevanceScore = 1)
    (hy : y.relevanceScore ≤ 95 / 100) : resultLE x y ∧ ¬ resultLE y x := by
  unfold resultLE resultCompare
  dsimp only
  have h1 : |y.relevanceScore - x.relevanceScore| > 1 / 100 := by
    rw [hx, abs_of_nonpos (by linarith)]
    linarith
  have h2 : |x.relevanceScore - y.relevanceScore| > 1 / 100 := by
    rw [abs_sub_comm]
    exact h1
  rw [if_pos h1, if_pos h2]
  constructor
  · linarith
  · intro hc
    linarith

/-- Sorting and truncating a result list in which a score-1 member `re`
lives splits the output into the block of exact score-1 results, containing
`re`, followed only by results scoring at most `0.95` — provided at most ten
results score `1`. -/
theorem sorted_take_partition (results : List SearchResult) (re : SearchResult)
    (hre : re ∈ results) (hre1 : re.relevanceScore = 1)
    (hK1 : ∀ x ∈ results, x.relevanceScore = 1 → x.matchType = strL "exact")
    (hK2 : ∀ x ∈ results, x.relevanceScore = 1 ∨ x.relevanceScore ≤ 95 / 100)
    (hcnt : (results.filter fun x => decide (x.relevanceScore = 1)).length ≤ 10) :
    ∃ A B, (sortResults results).take 10 = A ++ B ∧ re ∈ A ∧
      (∀ a ∈ A, a.relevanceScore = 1 ∧ a.matchType = strL "exact") ∧
      ∀ b ∈ B, b.relevanceScore ≤ 95 / 100 := by
  have hsep : ∀ x ∈ results, ∀ y ∈ results,
      (fun z : SearchResult => decide (z.relevanceScore = 1)) x = true →
      (fun z : SearchResult => decide (z.relevanceScore = 1)) y = false →
      resultLE x y ∧ ¬ resultLE y x := by
    intro x hx y hy hxP hyP
    have hx1 : x.relevanceScore = 1 := of_decide_eq_true hxP
    rcases hK2 y hy with h | h
    · rw [decide_eq_false_iff_not] at hyP
      exact absurd h hyP
    · exact resultLE_gap x y hx1 h
  obtain ⟨A, B, hAB, hA, hB, hlen⟩ :=
    insertionSort_partition resultLE (fun z : SearchResult => decide (z.relevanceScore = 1))
      results hsep
  have hmem : ∀ z ∈ A ++ B, z ∈ results := fun z hz =>
    (List.mem_insertionSort resultLE).mp (hAB ▸ hz)
  have hreA : re ∈ A := by
    have h1 : re ∈ A ++ B := hAB ▸ (List.mem_insertionSort resultLE).mpr hre
    rcases List.mem_append.mp h1 with h | h
    · exact h
    · have h2 := hB re h
      rw [decide_eq_false_iff_not] at h2
      exact absurd hre1 h2
  have hlen10 : A.length ≤ 10 := by
    rw [hlen]
    exact hcnt
  refine ⟨A, B.take (10 - A.length), ?_, hreA, ?_, ?_⟩
  · show (List.insertionSort resultLE results).take 10 = _
    rw [hAB, List.take_append_eq_append_take, List.take_of_length_le hlen10]
  · intro a ha
    have ha1 : a.relevanceScore = 1 := of_decide_eq_true (hA a ha)
    exact ⟨ha1, hK1 a (hmem a (List.mem_append_left B ha)) ha1⟩
  · intro b hb
    have hbB : b ∈ B := List.take_subset _ _ hb
    rcases hK2 b (hmem b (List.mem_append_right A hbB)) with h | h
    · have h2 := hB b hbB
      rw [decide_eq_false_iff_not] at h2
      exact absurd h h2
    · exact h

/-- The source comparator orders two results exactly as the specification's
tie-break sequence does. -/
theorem resultLE_iff (a b : SearchResult) : resultLE a b ↔ rankedNotAfter a b := by
  unfold resultLE resultCompare rankedNotAfter
  dsimp only
  rw [abs_sub_comm b.relevanceScore a.relevanceScore]
  split_ifs <;> simp [sub_nonpos, Nat.cast_le]

theorem searchWithFuzzyMatching_sorted (d : List Buzzword) (q : Str) :
    (searchWithFuzzyMatching d q).length ≤ 10 ∧
      List.Chain' rankedNotAfter (searchWithFuzzyMatching d q) := by
  simp only [searchWithFuzzyMatching]
  split
  · exact ⟨by simp, List.chain'_nil⟩
  · constructor
    · exact List.length_take_le 10 _
    · have hchain : List.Chain' resultLE (sortResults
          (((List.filter (preFilter (trimStr (lowerStr q))
              (splitWords (trimStr (lowerStr q)))) d).map
            (fun buzzword => calculateRelevanceScore buzzword (trimStr (lowerStr q))
              (splitWords (trimStr (lowerStr q))))).filter
            (fun result => result.relevanceScore > 1 / 10))) :=
        chain_insertionSort resultLE resultLE_total _
      exact List.Chain'.imp (fun x y hxy => (resultLE_iff x y).mp hxy)
        ( List.Chain'.prefix hchain ( List.take_prefix 10 _))

/-! ## Claim-side keyword scoring and its equality with the source -/

theorem contribOne_nonneg (w k : Str) : 0 ≤ contribOne w k := by
  unfold contribOne
  dsimp only
  split_ifs with h1 h2 h3 h4 <;> linarith

theorem termContribution_nonneg (ks : List Str) (w : Str) : 0 ≤ termContribution ks w := by
  unfold termContribution
  induction ks with
  | nil => simp
  | cons k ks ih =>
    simp only [List.map_cons, List.foldr_cons]
    exact le_trans ih (le_max_right _ _)

theorem keywordBest_fold (w : Str) :
    ∀ (ks : List Str) (m : ℚ), 0 ≤ m →
      List.foldl
        (fun bestMatch keyword =>
          let keywordLower := lowerStr keyword
          if keywordLower = w then max bestMatch 1
          else if containsStr keywordLower w then max bestMatch (8 / 10)
          else if containsStr w keywordLower then max bestMatch (7 / 10)
          else
            let fuzzyScore := calculateFuzzyMatch keywordLower w
            if fuzzyScore > 6 / 10 then max bestMatch (fuzzyScore * (1 / 2)) else bestMatch)
        m ks
      = max m (termContribution ks w) := by
  intro ks
  induction ks with
  | nil =>
    intro m hm
    simp only [List.foldl_nil, termContribution, List.map_nil, List.foldr_nil]
    exact (max_eq_left hm).symm
  | cons k ks ih =>
    intro m hm
    simp only [List.foldl_cons]
    have hstep :
        (let keywordLower := lowerStr k
         if keywordLower = w then max m 1
         else if containsStr keywordLower w then max m (8 / 10)
         else if containsStr w keywordLower then max m (7 / 10)
         else
           let fuzzyScore := calculateFuzzyMatch keywordLower w
           if fuzzyScore > 6 / 10 then max m (fuzzyScore * (1 / 2)) else m)
        = max m (contribOne w k) := by
      unfold contribOne
      dsimp only
      split_ifs <;> first | rfl | (exact (max_eq_left hm).symm)
    rw [hstep, ih (max m (contribOne w k)) (le_trans hm (le_max_left m _))]
    simp only [termContribution, List.map_cons, List.foldr_cons]
    rw [max_assoc]

theorem keywordBest_eq (ks : List Str) (w : Str) : keywordBest ks w = termContribution ks w := by
  unfold keywordBest
  rw [keywordBest_fold w ks 0 le_rfl]
  exact max_eq_right (termContribution_nonneg ks w)

theorem keywordAcc (ks : List Str) :
    ∀ (qws : List Str) (acc : ℚ × List Str),
      List.foldl
        (fun (acc : ℚ × List Str) queryWord =>
          let bestMatch := keywordBest ks queryWord
          if bestMatch > 0 then (acc.1 + bestMatch, acc.2 ++ [queryWord]) else acc)
        acc qws
      = (acc.1 + (qws.map (termContribution ks)).sum,
         acc.2 ++ qws.filter (fun w => decide (termContribution ks w > 0))) := by
  intro qws
  induction qws with
  | nil => intro acc; simp
  | cons w qws ih =>
    intro acc
    simp only [List.foldl_cons]
    rw [keywordBest_eq]
    by_cases h : termContribution ks w > 0
    · rw [if_pos h, ih]
      simp only [List.map_cons, List.sum_cons, List.filter_cons, decide_eq_true h,
        if_pos]
      rw [add_assoc, List.append_assoc, List.singleton_append]
    · rw [if_neg h, ih]
      have hc : termContribution ks w = 0 :=
        le_antisymm (not_lt.mp h) (termContribution_nonneg ks w)
      simp [List.filter_cons, h, hc]

/-- The keyword-matching routine computes exactly the specification's
formula: the sum of best contributions, squashed into
`min(0.85, 0.4 + sum / max(|terms|, |keywords|) * 0.45)`, together with the
terms that contributed. -/
theorem calculateKeywordMatches_spec (b : Buzzword) (qws : List Str) :
    calculateKeywordMatches b qws =
      (if (qws.map (termContribution b.keywords)).sum > 0 then
          min (85 / 100)
            (4 / 10 + ((qws.map (termContribution b.keywords)).sum /
              (Nat.max qws.length b.keywords.length : ℚ)) * (45 / 100))
        else 0,
       qws.filter (fun w => decide (termContribution b.keywords w > 0))) := by
  unfold calculateKeywordMatches
  rw [keywordAcc b.keywords qws (0, [])]
  simp

/-! ## Support lemmas: trimming, word splitting, containment, validation -/

theorem trimStr_idem (s : Str) : trimStr (trimStr s) = trimStr s := by
  unfold trimStr
  set A := s.dropWhile jsSpace with hA
  set B := A.reverse.dropWhile jsSpace with hB
  have hBfix : B.dropWhile jsSpace = B := by
    rw [hB, List.dropWhile_idempotent]
  have hstep1 : B.reverse.dropWhile jsSpace = B.reverse := by
    cases hBr : B.reverse with
    | nil => simp
    | cons c t =>
      have hAfix : A.dropWhile jsSpace = A := by
        rw [hA, List.dropWhile_idempotent]
      have hpre : B.reverse <+: A := by
        rw [show A = A.reverse.reverse from (List.reverse_reverse A).symm]
        exact List.reverse_prefix.mpr (List.dropWhile_suffix jsSpace)
      obtain ⟨t2, ht2⟩ := hpre
      rw [hBr] at ht2
      have hAhead : A = c :: (t ++ t2) := by
        rw [← ht2]; simp
      have hcns : jsSpace c = false := by
        by_contra hc
        have hc' : jsSpace c = true := by
          revert hc; cases jsSpace c <;> simp
        rw [hAhead, List.dropWhile_cons, if_pos hc'] at hAfix
        have hsub : List.Sublist ((t ++ t2).dropWhile jsSpace) (t ++ t2) :=
          (List.dropWhile_suffix jsSpace).sublist
        have hlen := hsub.length_le
        rw [hAfix] at hlen
        simp at hlen
      rw [List.dropWhile_cons, if_neg (by simp [hcns])]
  calc ((B.reverse.dropWhile jsSpace).reverse.dropWhile jsSpace).reverse
      = ((B.reverse.reverse).dropWhile jsSpace).reverse := by rw [hstep1]
    _ = (B.dropWhile jsSpace).reverse := by rw [List.reverse_reverse]
    _ = B.reverse := by rw [hBfix]

theorem splitWordsAux_eq_nil :
    ∀ (s : Str) (acc : Str), splitWordsAux s acc = [] →
      (∀ c ∈ s, jsSpace c = true) ∧ acc = [] := by
  intro s
  induction s with
  | nil =>
    intro acc h
    unfold splitWordsAux at h
    split_ifs at h with h1
    · exact ⟨by simp, List.isEmpty_iff.mp h1⟩
  | cons c s ih =>
    intro acc h
    unfold splitWordsAux at h
    split_ifs at h with h1 h2
    · obtain ⟨hs, _⟩ := ih [] h
      refine ⟨?_, List.isEmpty_iff.mp h2⟩
      intro x hx
      rcases List.mem_cons.mp hx with rfl | hx
      · exact h1
      · exact hs x hx
    · obtain ⟨_, hacc⟩ := ih (c :: acc) h
      cases hacc

theorem splitWords_ne_nil {s : Str} (h : ∃ c ∈ s, jsSpace c = false) :
    splitWords s ≠ [] := by
  intro hnil
  obtain ⟨hall, _⟩ := splitWordsAux_eq_nil s [] hnil
  obtain ⟨c, hc, hcf⟩ := h
  rw [hall c hc] at hcf
  cases hcf

theorem isAlpha_not_space {c : Char} (h : c.isAlpha = true) : jsSpace c = false := by
  by_contra hc
  have hc' : jsSpace c = true := by
    revert hc; cases jsSpace c <;> simp
  simp only [jsSpace, Bool.or_eq_true, decide_eq_true_eq] at hc'
  rcases hc' with ((((h1 | h1) | h1) | h1) | h1) | h1 <;> (subst h1; exact absurd h (by decide))

theorem containsStr_self (s : Str) : containsStr s s = true := by
  cases s with
  | nil => rfl
  | cons c t =>
    have h : (c :: t).isPrefixOf (c :: t) = true := by
      simp [ List.isPrefixOf_iff_prefix]
    simp [containsStr, h]

/-- Characters are equal exactly when their code points are. -/
theorem char_eq_iff_toNat (a b : Char) : a = b ↔ a.toNat = b.toNat := by
  constructor
  · intro h; rw [h]
  · intro h
    have h2 := congrArg Char.ofNat h
    rwa [Char.ofNat_toNat, Char.ofNat_toNat] at h2

/-- Reading back the code point of a character built from a scalar value
below the surrogate range. -/
theorem toNat_ofNat_valid (n : Nat) (h : n < 55296) : (Char.ofNat n).toNat = n := by
  rw [Char.ofNat, dif_pos (Or.inl h)]
  rfl

/-- All six whitespace characters recognised by the model have code points
at most `32`. -/
theorem jsSpace_eq_false_of_toNat (x : Char) (h : 32 < x.toNat) : jsSpace x = false := by
  unfold jsSpace
  simp only [Bool.or_eq_false_iff, decide_eq_false_iff_not]
  refine ⟨⟨⟨⟨⟨?_, ?_⟩, ?_⟩, ?_⟩, ?_⟩, ?_⟩ <;>
    (intro he; rw [char_eq_iff_toNat] at he; revert h; rw [he]; decide)

/-- Lower-casing maps only the code points `65`-`90` (to `97`-`122`), none of
which is whitespace, so it preserves whitespace-ness. -/
theorem jsSpace_toLower (c : Char) : jsSpace (Char.toLower c) = jsSpace c := by
  unfold Char.toLower
  dsimp only
  by_cases h : c.toNat ≥ 65 ∧ c.toNat ≤ 90
  · rw [if_pos h]
    rw [jsSpace_eq_false_of_toNat _ (by rw [toNat_ofNat_valid _ (by omega)]; omega),
        jsSpace_eq_false_of_toNat c (by omega)]
  · rw [if_neg h]

theorem dropWhile_lowerStr (s : Str) :
    (lowerStr s).dropWhile jsSpace = lowerStr (s.dropWhile jsSpace) := by
  induction s with
  | nil => rfl
  | cons c t ih =>
    show (Char.toLower c :: lowerStr t).dropWhile jsSpace = _
    rw [List.dropWhile_cons, List.dropWhile_cons, jsSpace_toLower]
    by_cases h : jsSpace c = true
    · rw [if_pos h, if_pos h, ih]
    · rw [if_neg h, if_neg h]
      rfl

theorem lowerStr_reverse (s : Str) : (lowerStr s).reverse = lowerStr s.reverse := by
  unfold lowerStr
  rw [List.map_reverse]

/-- Lower-casing commutes with trimming: `toLowerCase` moves no character in
or out of the whitespace class. -/
theorem trimStr_lowerStr (s : Str) : trimStr (lowerStr s) = lowerStr (trimStr s) := by
  unfold trimStr
  rw [dropWhile_lowerStr, lowerStr_reverse, dropWhile_lowerStr, lowerStr_reverse]

theorem calculateFuzzyMatch_le_one (s t : Str) : calculateFuzzyMatch s t ≤ 1 := by
  unfold calculateFuzzyMatch
  dsimp only
  split_ifs with h
  · exact le_refl 1
  · exact min_le_left _ _

theorem calculateKeywordMatches_le (b : Buzzword) (qws : List Str) :
    (calculateKeywordMatches b qws).1 ≤ 85 / 100 := by
  unfold calculateKeywordMatches
  dsimp only
  split_ifs with h
  · exact min_le_left _ _
  · norm_num

/-- Any entry whose lowered phrase differs from the query scores at most
`0.95`. -/
theorem relevanceScore_le (b : Buzzword) (nq : Str) (qws : List Str)
    (h : lowerStr b.phrase ≠ nq) :
    (calculateRelevanceScore b nq qws).relevanceScore ≤ 95 / 100 := by
  unfold calculateRelevanceScore
  dsimp only
  rw [if_neg h]
  by_cases h2 : containsStr (lowerStr b.phrase) nq = true
  · rw [if_pos h2]
    dsimp only
    rw [if_neg (by norm_num : ¬ (95 / 100 : ℚ) = 0)]
  · rw [if_neg h2]
    by_cases h3 : containsStr nq (lowerStr b.phrase) = true
    · rw [if_pos h3]
      dsimp only
      rw [if_neg (by norm_num : ¬ (9 / 10 : ℚ) = 0)]
      norm_num
    · rw [if_neg h3]
      by_cases h4 : (calculateKeywordMatches b qws).1 > 0
      · rw [if_pos h4]
        dsimp only
        rw [if_neg (ne_of_gt h4)]
        dsimp only
        exact le_trans (calculateKeywordMatches_le b qws) (by norm_num)
      · rw [if_neg h4]
        dsimp only
        rw [if_pos rfl]
        by_cases h5 : calculateFuzzyMatch (lowerStr b.phrase) nq > 3 / 10
        · rw [if_pos h5]
          dsimp only
          linarith [calculateFuzzyMatch_le_one (lowerStr b.phrase) nq]
        · rw [if_neg h5]
          norm_num

/-- On an exact phrase match the matcher returns the full record with score
`1` and type `exact`. -/
theorem calculateRelevanceScore_exact (b : Buzzword) (nq : Str) (qws : List Str)
    (h : lowerStr b.phrase = nq) :
    calculateRelevanceScore b nq qws =
      { matchPhrase := b.phrase, translation := b.translation, relevanceScore := 1,
        matchedKeywords := [nq], category := b.category, context := b.context,
        alternatives := b.alternatives, multipleMeanings := b.multipleMeanings,
        matchType := strL "exact" } := by
  unfold calculateRelevanceScore
  dsimp only
  rw [if_pos h]
  dsimp only
  rw [if_neg (by norm_num : ¬ (1 : ℚ) = 0)]
  simp [dedupFirst, dedupFirstAux]

/-- Unfolding of `validateSearchInput` as a plain conditional. -/
theorem validateSearchInput_eq (input : Str) :
    validateSearchInput input =
      if (sanitizeInput input).isEmpty then ⟨true, sanitizeInput input, strL "empty"⟩
      else if (sanitizeInput input).length < 2 then
        ⟨false, sanitizeInput input, strL "too_short"⟩
      else if (sanitizeInput input).length > 100 then
        ⟨false, sanitizeInput input, strL "too_long"⟩
      else if !((sanitizeInput input).any Char.isAlpha) then
        ⟨false, sanitizeInput input, strL "invalid_characters"⟩
      else ⟨true, sanitizeInput input, strL "valid"⟩ := rfl

/-- Inversion of a `valid` verdict: the sanitised query is non-empty, within
the length bounds and contains a letter. -/
theorem validateSearchInput_valid {input : Str}
    (h : (validateSearchInput input).message = strL "valid") :
    validateSearchInput input = ⟨true, sanitizeInput input, strL "valid"⟩ ∧
      ¬ (sanitizeInput input).isEmpty = true ∧
      ¬ (sanitizeInput input).length < 2 ∧
      ¬ (sanitizeInput input).length > 100 ∧
      (sanitizeInput input).any Char.isAlpha = true := by
  rw [validateSearchInput_eq] at h ⊢
  split_ifs at h ⊢ with h1 h2 h3 h4
  · dsimp only at h; exact absurd h (by decide)
  · dsimp only at h; exact absurd h (by decide)
  · dsimp only at h; exact absurd h (by decide)
  · dsimp only at h; exact absurd h (by decide)
  · refine ⟨rfl, h1, h2, h3, ?_⟩
    simpa using h4

theorem head_take_ten {α : Type} (l : List α) : (l.take 10).head? = l.head? := by
  cases l <;> rfl

/-! ## Membership properties of sanitisation -/

theorem mem_collapseWsAux :
    ∀ (s : Str) (b : Bool) (c : Char), c ∈ collapseWsAux s b → c = ' ' ∨ c ∈ s := by
  intro s
  induction s with
  | nil => intro b c h; simp [collapseWsAux] at h
  | cons x s ih =>
    intro b c h
    unfold collapseWsAux at h
    split_ifs at h with h1 h2
    · rcases ih true c h with h' | h'
      · exact Or.inl h'
      · exact Or.inr (List.mem_cons_of_mem x h')
    · rcases List.mem_cons.mp h with rfl | h'
      · exact Or.inl rfl
      · rcases ih true c h' with h'' | h''
        · exact Or.inl h''
        · exact Or.inr (List.mem_cons_of_mem x h'')
    · rcases List.mem_cons.mp h with rfl | h'
      · exact Or.inr (List.mem_cons_self c s)
      · rcases ih false c h' with h'' | h''
        · exact Or.inl h''
        · exact Or.inr (List.mem_cons_of_mem x h'')

theorem mem_trimStr {s : Str} {c : Char} (h : c ∈ trimStr s) : c ∈ s := by
  unfold trimStr at h
  rw [List.mem_reverse] at h
  have h1 := (List.dropWhile_suffix jsSpace).sublist.subset h
  rw [List.mem_reverse] at h1
  exact (List.dropWhile_suffix jsSpace).sublist.subset h1

/-- Searching depends on the raw query only through its sanitised form. -/
theorem performSearch_congr (d : List Buzzword) (q1 q2 : Str)
    (h : sanitizeInput q1 = sanitizeInput q2) : performSearch d q1 = performSearch d q2 := by
  unfold performSearch
  rw [validateSearchInput_eq q1, validateSearchInput_eq q2, h]

/-! ## Claim theorems -/

/-- C9: the Levenshtein distance function satisfies
`distance("kitten","sitting") = 3`, `distance(x,x) = 0` for every string,
and symmetry, and the row-by-row dynamic program equals the textbook
unit-cost Levenshtein recursion (applied to the reversed strings, since the
DP grows prefixes while the recursion peels leading characters). -/
theorem C9_levenshtein_properties :
    levenshteinDistance (strL "kitten") (strL "sitting") = 3 ∧
      (∀ x : Str, levenshteinDistance x x = 0) ∧
      (∀ x y : Str, levenshteinDistance x y = levenshteinDistance y x) ∧
      (∀ x y : Str, levenshteinDistance x y = levR x.reverse y.reverse) := by
  refine ⟨by decide, fun x => ?_, fun x y => ?_, fun x y => levenshteinDistance_eq_levR x y⟩
  · rw [levenshteinDistance_eq_levR]
    exact levR_self _
  · rw [levenshteinDistance_eq_levR, levenshteinDistance_eq_levR]
    exact levR_symm _ _

/-- C6: the empty query yields the distinct empty status, `"a"` is rejected
as too short, `"123"` as having no letters, and 101 letters as too long;
each outcome is a typed value with its own reason code. -/
theorem C6_validation_outcomes :
    ∀ d : List Buzzword,
      performSearch d (strL "") = SearchOutcome.empty ∧
      performSearch d (strL "a") = SearchOutcome.invalid (strL "too_short") ∧
      performSearch d (strL "123") = SearchOutcome.invalid (strL "invalid_characters") ∧
      performSearch d (List.replicate 101 'a') = SearchOutcome.invalid (strL "too_long") ∧
      (∀ results : List SearchResult, SearchOutcome.empty ≠ SearchOutcome.ok results) ∧
      strL "too_short" ≠ strL "too_long" ∧
      strL "too_short" ≠ strL "invalid_characters" ∧
      strL "too_long" ≠ strL "invalid_characters" := by
  intro d
  refine ⟨rfl, rfl, rfl, rfl, ?_, by decide, by decide, by decide⟩
  intro results h
  exact SearchOutcome.noConfusion h

/-- C1 (falsified by the code): on the dictionary containing only the
`synergy` entry, the query `"synergyy"` is dropped by the pre-filter, so the
pre-filtered pipeline returns nothing while running the matcher on every
entry returns the `query_contains` result with score `0.9`: the pre-filter
does change the final result set. -/
theorem C1_prefilter_changes_results :
    searchWithFuzzyMatching [synergyEntry] (strL "synergyy") = [] ∧
      searchAllEntries [synergyEntry] (strL "synergyy")
        = [calculateRelevanceScore synergyEntry (strL "synergyy") [strL "synergyy"]] ∧
      (calculateRelevanceScore synergyEntry (strL "synergyy") [strL "synergyy"]).relevanceScore
        = 9 / 10 ∧
      (calculateRelevanceScore synergyEntry (strL "synergyy") [strL "synergyy"]).relevanceScore
        > 1 / 10 ∧
      searchAllEntries [synergyEntry] (strL "synergyy")
        ≠ searchWithFuzzyMatching [synergyEntry] (strL "synergyy") := by
  refine ⟨by with_unfolding_all decide, by with_unfolding_all decide,
    by with_unfolding_all decide, by with_unfolding_all decide, by with_unfolding_all decide⟩

/-- C5 (as stated, falsified by the code): with the dictionary containing
the `synergy` entry, `search("synergyy")` returns no results at all — the
pre-filter drops the entry before the matcher can run. -/
theorem C5_counterexample :
    performSearch [synergyEntry] (strL "synergyy") = SearchOutcome.ok [] ∧
      searchWithFuzzyMatching [synergyEntry] (strL "synergyy") = [] := by
  refine ⟨by with_unfolding_all decide, by with_unfolding_all decide⟩

/-- C5 (amended): `search("synergyy")` returns an empty result list; had the
matcher been consulted, it would have classified the entry as
`query_contains` (rule 3 fires before the fuzzy rule, because `"synergyy"`
contains `"synergy"`) with score `0.9`, not as a fuzzy match. -/
theorem C5_amended :
    performSearch [synergyEntry] (strL "synergyy") = SearchOutcome.ok [] ∧
      (calculateRelevanceScore synergyEntry (strL "synergyy") [strL "synergyy"]).matchType
        = strL "query_contains" ∧
      (calculateRelevanceScore synergyEntry (strL "synergyy") [strL "synergyy"]).relevanceScore
        = 9 / 10 := by
  refine ⟨by with_unfolding_all decide, by with_unfolding_all decide,
    by with_unfolding_all decide⟩

/-- C3: every returned result list has length at most ten and is ordered by
the specification's comparison: score descending, scores within `0.01`
treated as tied, ties broken by `exact`, then `phrase_contains`, then
shorter phrase first. -/
theorem C3_ranked_and_capped (d : List Buzzword) (q : Str) (results : List SearchResult)
    (h : performSearch d q = SearchOutcome.ok results) :
    results.length ≤ 10 ∧ List.Chain' rankedNotAfter results := by
  unfold performSearch at h
  dsimp only at h
  split_ifs at h
  injection h with h'
  rw [← h']
  exact searchWithFuzzyMatching_sorted d _

theorem C3_witness :
    [calculateRelevanceScore tinyEntry (strL "ab") [strL "ab"]].length ≤ 10 ∧
      List.Chain' rankedNotAfter [calculateRelevanceScore tinyEntry (strL "ab") [strL "ab"]] :=
  C3_ranked_and_capped [tinyEntry] (strL "ab")
    [calculateRelevanceScore tinyEntry (strL "ab") [strL "ab"]] (by with_unfolding_all decide)

/-- C4: for an entry that rules 1-3 do not match and whose terms'
contributions (best per keyword: `1.0` exact, `0.8` keyword-contains-term,
`0.7` term-contains-keyword, else fuzzy similarity halved when above `0.6`)
sum to a positive total, the matcher scores it
`min(0.85, 0.4 + (sum / max(|terms|, |keywords|)) * 0.45)` with type
`keyword` and matched terms exactly the contributing terms. -/
theorem C4_keyword_scoring (b : Buzzword) (nq : Str) (qws : List Str)
    (h1 : lowerStr b.phrase ≠ nq)
    (h2 : containsStr (lowerStr b.phrase) nq = false)
    (h3 : containsStr nq (lowerStr b.phrase) = false)
    (h4 : qws ≠ [])
    (h5 : 0 < (qws.map (termContribution b.keywords)).sum) :
    (calculateRelevanceScore b nq qws).relevanceScore =
        min (85 / 100)
          (4 / 10 + ((qws.map (termContribution b.keywords)).sum /
            (Nat.max qws.length b.keywords.length : ℚ)) * (45 / 100)) ∧
      (calculateRelevanceScore b nq qws).matchType = strL "keyword" ∧
      (calculateRelevanceScore b nq qws).matchedKeywords =
        dedupFirst (qws.filter (fun w => decide (termContribution b.keywords w > 0))) := by
  have h2' : ¬ containsStr (lowerStr b.phrase) nq = true := by rw [h2]; simp
  have h3' : ¬ containsStr nq (lowerStr b.phrase) = true := by rw [h3]; simp
  have hmin : (0 : ℚ) <
      min (85 / 100)
        (4 / 10 + ((qws.map (termContribution b.keywords)).sum /
          (Nat.max qws.length b.keywords.length : ℚ)) * (45 / 100)) := by
    have hdiv : (0 : ℚ) ≤ (qws.map (termContribution b.keywords)).sum /
        (Nat.max qws.length b.keywords.length : ℚ) :=
      div_nonneg (le_of_lt h5) (Nat.cast_nonneg _)
    have hmul : (0 : ℚ) ≤ ((qws.map (termContribution b.keywords)).sum /
        (Nat.max qws.length b.keywords.length : ℚ)) * (45 / 100) :=
      mul_nonneg hdiv (by norm_num)
    exact lt_min (by norm_num) (by linarith)
  unfold calculateRelevanceScore
  dsimp only
  rw [if_neg h1, if_neg h2', if_neg h3', calculateKeywordMatches_spec b qws]
  dsimp only
  rw [if_pos h5, if_pos hmin]
  dsimp only
  rw [if_neg (ne_of_gt hmin)]
  exact ⟨rfl, rfl, rfl⟩

theorem C4_witness :
    (calculateRelevanceScore synergyEntry (strL "teamwork") [strL "teamwork"]).relevanceScore =
        min (85 / 100)
          (4 / 10 + ((([strL "teamwork"] : List Str).map
              (termContribution synergyEntry.keywords)).sum /
            (Nat.max ([strL "teamwork"] : List Str).length
              synergyEntry.keywords.length : ℚ)) * (45 / 100)) ∧
      (calculateRelevanceScore synergyEntry (strL "teamwork") [strL "teamwork"]).matchType
        = strL "keyword" ∧
      (calculateRelevanceScore synergyEntry (strL "teamwork") [strL "teamwork"]).matchedKeywords
        = dedupFirst (([strL "teamwork"] : List Str).filter
            (fun w => decide (termContribution synergyEntry.keywords w > 0))) :=
  C4_keyword_scoring synergyEntry (strL "teamwork") [strL "teamwork"]
    (by decide) (by with_unfolding_all decide) (by with_unfolding_all decide)
    (by decide) (by with_unfolding_all decide)

/-- C7 (as stated, falsified by the code): sanitising
`<script>alert(1)</script>synergy` keeps the parentheses and the slash and
inserts no space, so the two claimed-equivalent searches in fact differ on
the one-entry `synergy` dictionary. -/
theorem C7_counterexample :
    sanitizeInput (strL "<script>alert(1)</script>synergy")
        = strL "scriptalert(1)/scriptsynergy" ∧
      performSearch [synergyEntry] (strL "<script>alert(1)</script>synergy")
        = SearchOutcome.ok [] ∧
      performSearch [synergyEntry] (strL "scriptalert1script synergy")
        = SearchOutcome.ok [calculateRelevanceScore synergyEntry
            (strL "scriptalert1script synergy") [strL "scriptalert1script", strL "synergy"]] ∧
      performSearch [synergyEntry] (strL "<script>alert(1)</script>synergy")
        ≠ performSearch [synergyEntry] (strL "scriptalert1script synergy") := by
  refine ⟨by decide, by with_unfolding_all decide, by with_unfolding_all decide,
    by with_unfolding_all decide⟩

/-- C7 (amended): sanitisation strips `< > " ' &` and control characters
(whitespace runs become single spaces, ends are trimmed), so no markup
character reaches scoring; the concrete query
`<script>alert(1)</script>synergy` sanitises to
`scriptalert(1)/scriptsynergy` and behaves identically to searching that
string directly, on every dictionary. -/
theorem C7_amended :
    (∀ (input : Str) (c : Char), c ∈ sanitizeInput input →
        (c ≠ '<' ∧ c ≠ '>' ∧ c ≠ Char.ofNat 34 ∧ c ≠ Char.ofNat 39 ∧ c ≠ '&') ∧
          (0x1F < c.toNat ∧ c.toNat ≠ 0x7F)) ∧
      sanitizeInput (strL "<script>alert(1)</script>synergy")
        = strL "scriptalert(1)/scriptsynergy" ∧
      (∀ d : List Buzzword,
        performSearch d (strL "<script>alert(1)</script>synergy")
          = performSearch d (strL "scriptalert(1)/scriptsynergy")) := by
  refine ⟨?_, by decide, ?_⟩
  · intro input c hc
    unfold sanitizeInput at hc
    have hc1 : c ∈ removeCtrl (collapseWs (removeHarmful input)) := mem_trimStr hc
    obtain ⟨hc2, hctrl⟩ := List.mem_filter.mp hc1
    have hctrl' : ¬ (c.toNat ≤ 0x1F ∨ c.toNat = 0x7F) := by
      intro hor
      rcases hor with hle | heq
      · simp [hle] at hctrl
      · simp [heq] at hctrl
    refine ⟨?_, by omega⟩
    rcases mem_collapseWsAux _ false c hc2 with rfl | hc3
    · exact ⟨by decide, by decide, by decide, by decide, by decide⟩
    · obtain ⟨_, hharm⟩ := List.mem_filter.mp hc3
      simp only [Bool.not_eq_true', Bool.or_eq_false_iff, decide_eq_false_iff_not] at hharm
      obtain ⟨⟨⟨⟨ha, hb⟩, hc3⟩, hd⟩, he2⟩ := hharm
      exact ⟨ha, hb, hc3, hd, he2⟩
  · intro d
    exact performSearch_congr d _ _ (by decide)

theorem C7_witness :
    ('s' ≠ '<' ∧ 's' ≠ '>' ∧ 's' ≠ Char.ofNat 34 ∧ 's' ≠ Char.ofNat 39 ∧ 's' ≠ '&') ∧
      (0x1F < 's'.toNat ∧ 's'.toNat ≠ 0x7F) :=
  C7_amended.1 (strL "synergy") 's' (by decide)

/-- C8 (as stated, falsified by the code): with one valid and one invalid
entry (empty translation) the load succeeds — but the engine receives the
**full** supplied list, the invalid entry included, and serves it in search
results with its empty translation: invalid entries are never dropped. -/
theorem C8_counterexample :
    initializeEngine [synergyEntry, badEntry] = some [synergyEntry, badEntry] ∧
      badEntry.translation = [] ∧
      performSearch [synergyEntry, badEntry] (strL "oops")
        = SearchOutcome.ok [calculateRelevanceScore badEntry (strL "oops") [strL "oops"]] ∧
      (calculateRelevanceScore badEntry (strL "oops") [strL "oops"]).translation = [] := by
  refine ⟨by with_unfolding_all decide, by decide, by with_unfolding_all decide,
    by with_unfolding_all decide⟩

/-- C8 (amended): the loader refuses exactly when the supplied list is empty
or the malformed entries (empty phrase or translation) exceed half of it;
otherwise the engine operates on the full supplied list, malformed entries
included — as witnessed by the invalid `oops` entry remaining searchable. -/
theorem C8_amended :
    (∀ supplied : List Buzzword,
      (initializeEngine supplied = none ↔
        supplied = [] ∨ supplied.length <
          2 * (supplied.filter
            (fun buzzword => buzzword.phrase.isEmpty || buzzword.translation.isEmpty)).length) ∧
      ∀ kept, initializeEngine supplied = some kept → kept = supplied) ∧
    performSearch [synergyEntry, badEntry] (strL "oops")
      = SearchOutcome.ok [calculateRelevanceScore badEntry (strL "oops") [strL "oops"]] := by
  refine ⟨?_, by with_unfolding_all decide⟩
  intro supplied
  unfold initializeEngine
  by_cases he : supplied.isEmpty = true
  · rw [if_pos he]
    refine ⟨⟨fun _ => Or.inl (List.isEmpty_iff.mp he), fun _ => rfl⟩, ?_⟩
    intro kept hk
    exact Option.noConfusion hk
  · rw [if_neg he]
    dsimp only
    set I := (supplied.filter
      (fun buzzword => buzzword.phrase.isEmpty || buzzword.translation.isEmpty)).length with hI
    by_cases hr : (I : ℚ) > (supplied.length : ℚ) * (1 / 2)
    · rw [if_pos hr]
      have hlt : supplied.length < 2 * I := by
        have : ((supplied.length : ℚ)) < 2 * (I : ℚ) := by linarith
        exact_mod_cast this
      refine ⟨⟨fun _ => Or.inr hlt, fun _ => rfl⟩, ?_⟩
      intro kept hk
      exact Option.noConfusion hk
    · rw [if_neg hr]
      constructor
      · constructor
        · intro hk
          exact Option.noConfusion hk
        · intro hor
          rcases hor with hnil | hlt
          · rw [hnil] at he
            exact absurd rfl he
          · exfalso
            apply hr
            have : (2 * I : ℚ) > (supplied.length : ℚ) := by exact_mod_cast hlt
            linarith
      · intro kept hk
        injection hk with hk'
        exact hk'.symm

theorem C8_witness : initializeEngine [synergyEntry, badEntry, badEntry] = none :=
  ((C8_amended.1 [synergyEntry, badEntry, badEntry]).1).mpr (Or.inr (by decide))

/-- C10: the validator checks length before letters and too-short before
too-long — a sanitised query of length one is rejected as too short and one
longer than 100 characters as too long, letters or not, while the
no-letters reason occurs exactly for letterless queries of length 2 to 100. -/
theorem C10_validation_precedence (input : Str) :
    ((sanitizeInput input).length = 1 →
      validateSearchInput input = ⟨false, sanitizeInput input, strL "too_short"⟩) ∧
    ((sanitizeInput input).length > 100 →
      validateSearchInput input = ⟨false, sanitizeInput input, strL "too_long"⟩) ∧
    ((validateSearchInput input).message = strL "invalid_characters" →
      2 ≤ (sanitizeInput input).length ∧ (sanitizeInput input).length ≤ 100 ∧
        (sanitizeInput input).any Char.isAlpha = false) ∧
    (2 ≤ (sanitizeInput input).length → (sanitizeInput input).length ≤ 100 →
      (sanitizeInput input).any Char.isAlpha = false →
      validateSearchInput input = ⟨false, sanitizeInput input, strL "invalid_characters"⟩) := by
  have hlen_empty : (sanitizeInput input).isEmpty = true ↔ (sanitizeInput input).length = 0 := by
    rw [List.isEmpty_iff, List.length_eq_zero]
  refine ⟨?_, ?_, ?_, ?_⟩
  · intro h1
    rw [validateSearchInput_eq]
    rw [if_neg (by rw [hlen_empty]; omega), if_pos (by omega)]
  · intro h2
    rw [validateSearchInput_eq]
    rw [if_neg (by rw [hlen_empty]; omega), if_neg (by omega), if_pos (by omega)]
  · intro h3
    rw [validateSearchInput_eq] at h3
    split_ifs at h3 with h1 h2 h3' h4
    · dsimp only at h3; exact absurd h3 (by decide)
    · dsimp only at h3; exact absurd h3 (by decide)
    · dsimp only at h3; exact absurd h3 (by decide)
    · refine ⟨by omega, by omega, ?_⟩
      simpa using h4
    · dsimp only at h3; exact absurd h3 (by decide)
  · intro ha hb hc
    rw [validateSearchInput_eq]
    rw [if_neg (by rw [hlen_empty]; omega), if_neg (by omega), if_neg (by omega),
      if_pos (by rw [hc]; rfl)]

theorem C10_witness :
    validateSearchInput (strL "1") = ⟨false, strL "1", strL "too_short"⟩ ∧
      validateSearchInput (List.replicate 101 '1')
        = ⟨false, List.replicate 101 '1', strL "too_long"⟩ ∧
      validateSearchInput (strL "12") = ⟨false, strL "12", strL "invalid_characters"⟩ := by
  refine ⟨?_, ?_, ?_⟩
  · exact ((C10_validation_precedence (strL "1")).1 (by decide)).trans (by decide)
  · exact ((C10_validation_precedence (List.replicate 101 '1')).2.1 (by decide)).trans (by decide)
  · exact ((C10_validation_precedence (strL "12")).2.2.2 (by decide) (by decide)
      (by decide)).trans (by decide)

/-- C2 (as stated, falsified by the code, in two independent ways): first,
the entry with phrase `a&b` has a phrase that is a valid query, yet
searching for that phrase returns no results at all — sanitisation turns
the query into `ab`, which no longer overlaps the phrase, so the pre-filter
drops the entry and no exact result is produced.  Second, on a dictionary
of eleven entries whose phrases are distinct case variants of `quad`,
searching for the phrase `quad` of the last entry returns ten results none
of which is a result for `quad`: every variant scores an exact `1.0`, the
stable sort keeps dictionary order, and the top-ten cut drops the eleventh
entry's own result. -/
theorem C2_counterexample :
    ((validateSearchInput (strL "a&b")).message = strL "valid" ∧
      performSearch [ampEntry] (strL "a&b") = SearchOutcome.ok []) ∧
    ((validateSearchInput (strL "quad")).message = strL "valid" ∧
      sanitizeInput (strL "quad") = strL "quad" ∧
      caseVariantEntry "quad" ∈ caseVariantDict ∧
      (searchWithFuzzyMatching caseVariantDict (strL "quad")).length = 10 ∧
      performSearch caseVariantDict (strL "quad") =
        SearchOutcome.ok (searchWithFuzzyMatching caseVariantDict (strL "quad")) ∧
      (searchWithFuzzyMatching caseVariantDict (strL "quad")).all
        (fun r => decide (r.matchPhrase ≠ strL "quad")) = true) := by
  refine ⟨⟨by decide, by with_unfolding_all decide⟩,
    by decide, by decide, by decide, by with_unfolding_all decide,
    by with_unfolding_all decide, by with_unfolding_all decide⟩

/-- C2 (amended): for a dictionary entry whose phrase is unchanged by
sanitisation and is a valid query, and whose lowered phrase is shared by at
most ten entries of the dictionary, searching for the phrase succeeds and
the returned list is a block of exact results with relevance score `1` —
among them the entry's own result, carrying the entry's phrase — followed
only by results scoring at most `0.95`: the entry's exact result is
included and ranked ahead of every result scoring below `1.0`. -/
theorem C2_exact_first (d : List Buzzword) (e : Buzzword)
    (he : e ∈ d)
    (hsan : sanitizeInput e.phrase = e.phrase)
    (hvalid : (validateSearchInput e.phrase).message = strL "valid")
    (hcount : (d.filter fun f => decide (lowerStr f.phrase = lowerStr e.phrase)).length ≤ 10) :
    performSearch d e.phrase = SearchOutcome.ok (searchWithFuzzyMatching d e.phrase) ∧
      ∃ A B, searchWithFuzzyMatching d e.phrase = A ++ B ∧
        calculateRelevanceScore e (lowerStr e.phrase) (splitWords (lowerStr e.phrase)) ∈ A ∧
        (calculateRelevanceScore e (lowerStr e.phrase)
            (splitWords (lowerStr e.phrase))).matchPhrase = e.phrase ∧
        (∀ a ∈ A, a.relevanceScore = 1 ∧ a.matchType = strL "exact") ∧
        ∀ b ∈ B, b.relevanceScore ≤ 95 / 100 := by
  obtain ⟨hval, hne, hlen2, hlen100, hletter⟩ := validateSearchInput_valid hvalid
  rw [hsan] at hne hlen2 hlen100 hletter
  have htrim : trimStr e.phrase = e.phrase := by
    have h1 : trimStr (sanitizeInput e.phrase) = sanitizeInput e.phrase := by
      unfold sanitizeInput
      exact trimStr_idem _
    rwa [hsan] at h1
  have hnorm : trimStr (lowerStr e.phrase) = lowerStr e.phrase := by
    rw [trimStr_lowerStr, htrim]
  have hps : performSearch d e.phrase = SearchOutcome.ok (searchWithFuzzyMatching d e.phrase) := by
    unfold performSearch
    rw [hval]
    dsimp only
    rw [if_neg (by decide : ¬ (strL "valid" = strL "empty")), if_neg (by decide : ¬ (true = false)),
      hsan]
  refine ⟨hps, ?_⟩
  have hwords : ¬ (splitWords (lowerStr e.phrase)).isEmpty = true := by
    rw [List.isEmpty_iff]
    apply splitWords_ne_nil
    obtain ⟨c, hc, hca⟩ := List.any_eq_true.mp hletter
    refine ⟨Char.toLower c, List.mem_map_of_mem Char.toLower hc, ?_⟩
    rw [jsSpace_toLower]
    exact isAlpha_not_space hca
  have hexact := calculateRelevanceScore_exact e (lowerStr e.phrase)
    (splitWords (lowerStr e.phrase)) rfl
  have hpre : preFilter (lowerStr e.phrase) (splitWords (lowerStr e.phrase)) e = true := by
    unfold preFilter
    rw [if_neg hne]
    dsimp only
    simp [containsStr_self]
  have hre : calculateRelevanceScore e (lowerStr e.phrase) (splitWords (lowerStr e.phrase)) ∈
      ((d.filter (preFilter (lowerStr e.phrase) (splitWords (lowerStr e.phrase)))).map
        (fun buzzword => calculateRelevanceScore buzzword (lowerStr e.phrase)
          (splitWords (lowerStr e.phrase)))).filter
        (fun result => result.relevanceScore > 1 / 10) := by
    apply List.mem_filter.mpr
    constructor
    · exact List.mem_map_of_mem _ (List.mem_filter.mpr ⟨he, hpre⟩)
    · rw [hexact]
      norm_num
  have hdecomp : ∀ x ∈ ((d.filter (preFilter (lowerStr e.phrase)
        (splitWords (lowerStr e.phrase)))).map
        (fun buzzword => calculateRelevanceScore buzzword (lowerStr e.phrase)
          (splitWords (lowerStr e.phrase)))).filter
        (fun result => result.relevanceScore > 1 / 10),
      ∃ f, f ∈ d ∧ x = calculateRelevanceScore f (lowerStr e.phrase)
        (splitWords (lowerStr e.phrase)) := by
    intro x hx
    obtain ⟨hxmap, _⟩ := List.mem_filter.mp hx
    obtain ⟨f, hf, hfeq⟩ := List.mem_map.mp hxmap
    exact ⟨f, (List.mem_filter.mp hf).1, hfeq.symm⟩
  have hK1 : ∀ x ∈ ((d.filter (preFilter (lowerStr e.phrase)
        (splitWords (lowerStr e.phrase)))).map
        (fun buzzword => calculateRelevanceScore buzzword (lowerStr e.phrase)
          (splitWords (lowerStr e.phrase)))).filter
        (fun result => result.relevanceScore > 1 / 10),
      x.relevanceScore = 1 → x.matchType = strL "exact" := by
    intro x hx hx1
    obtain ⟨f, hfd, rfl⟩ := hdecomp x hx
    by_cases hfe : lowerStr f.phrase = lowerStr e.phrase
    · rw [calculateRelevanceScore_exact f _ _ hfe]
    · have hle := relevanceScore_le f (lowerStr e.phrase) (splitWords (lowerStr e.phrase)) hfe
      rw [hx1] at hle
      norm_num at hle
  have hK2 : ∀ x ∈ ((d.filter (preFilter (lowerStr e.phrase)
        (splitWords (lowerStr e.phrase)))).map
        (fun buzzword => calculateRelevanceScore buzzword (lowerStr e.phrase)
          (splitWords (lowerStr e.phrase)))).filter
        (fun result => result.relevanceScore > 1 / 10),
      x.relevanceScore = 1 ∨ x.relevanceScore ≤ 95 / 100 := by
    intro x hx
    obtain ⟨f, hfd, rfl⟩ := hdecomp x hx
    by_cases hfe : lowerStr f.phrase = lowerStr e.phrase
    · left
      rw [calculateRelevanceScore_exact f _ _ hfe]
    · right
      exact relevanceScore_le f (lowerStr e.phrase) (splitWords (lowerStr e.phrase)) hfe
  have hcnt : ((((d.filter (preFilter (lowerStr e.phrase)
        (splitWords (lowerStr e.phrase)))).map
        (fun buzzword => calculateRelevanceScore buzzword (lowerStr e.phrase)
          (splitWords (lowerStr e.phrase)))).filter
        (fun result => result.relevanceScore > 1 / 10)).filter
        fun x => decide (x.relevanceScore = 1)).length ≤ 10 := by
    refine le_trans (count_bound (fun buzzword => calculateRelevanceScore buzzword
      (lowerStr e.phrase) (splitWords (lowerStr e.phrase)))
      (preFilter (lowerStr e.phrase) (splitWords (lowerStr e.phrase)))
      (fun result => decide (result.relevanceScore > 1 / 10))
      (fun x => decide (x.relevanceScore = 1))
      (fun f => decide (lowerStr f.phrase = lowerStr e.phrase)) d ?_) hcount
    intro f hf hP
    rw [decide_eq_true_eq] at hP
    rw [decide_eq_true_eq]
    by_contra hfe
    have hle := relevanceScore_le f (lowerStr e.phrase) (splitWords (lowerStr e.phrase)) hfe
    rw [hP] at hle
    norm_num at hle
  obtain ⟨A, B, hEq, hmemA, hallA, hallB⟩ := sorted_take_partition
    (((d.filter (preFilter (lowerStr e.phrase) (splitWords (lowerStr e.phrase)))).map
        (fun buzzword => calculateRelevanceScore buzzword (lowerStr e.phrase)
          (splitWords (lowerStr e.phrase)))).filter
      (fun result => result.relevanceScore > 1 / 10))
    (calculateRelevanceScore e (lowerStr e.phrase) (splitWords (lowerStr e.phrase)))
    hre (by rw [hexact]) hK1 hK2 hcnt
  refine ⟨A, B, ?_, hmemA, by rw [hexact], hallA, hallB⟩
  simp only [searchWithFuzzyMatching, hnorm]
  rw [if_neg hwords]
  exact hEq

theorem C2_witness :
    performSearch [koolAidEntry] koolAidEntry.phrase =
        SearchOutcome.ok (searchWithFuzzyMatching [koolAidEntry] koolAidEntry.phrase) ∧
      ∃ A B, searchWithFuzzyMatching [koolAidEntry] koolAidEntry.phrase = A ++ B ∧
        calculateRelevanceScore koolAidEntry (lowerStr koolAidEntry.phrase)
          (splitWords (lowerStr koolAidEntry.phrase)) ∈ A ∧
        (calculateRelevanceScore koolAidEntry (lowerStr koolAidEntry.phrase)
            (splitWords (lowerStr koolAidEntry.phrase))).matchPhrase = koolAidEntry.phrase ∧
        (∀ a ∈ A, a.relevanceScore = 1 ∧ a.matchType = strL "exact") ∧
        ∀ b ∈ B, b.relevanceScore ≤ 95 / 100 :=
  C2_exact_first [koolAidEntry] koolAidEntry (by decide) (by decide) (by decide) (by decide)
